import Mathlib

/-!
# Verification of the galilego thumbnail worker (main.go)

A shallow embedding of the image-request worker of `main.go`:
the cache-path computation (`fmt.Sprintf("imgcache/%s_%d", path, size)`),
the filename filter (`imgre`), the thumbnail fit computation
(`resize.Thumbnail` from nfnt/resize, called with `size, size` and
nearest-neighbour resampling), and the per-request processing loop
`getImage` over an explicit filesystem state.

Go strings are modelled as Lean `String`s, Go `uint` as `Nat` with
explicit `% 2^64` where a multiplication can overflow, byte contents of
files as an inductive `FileContent` separating JPEG/PNG/GIF payloads
(the `image/jpeg` decoder succeeds exactly on JPEG payloads), and the
filesystem as an association list of files plus a list of created
directories and a current clock.
-/

/-- Decoded image as Go's `image.Image` exposes it to this program:
bounds give a width and a height, plus abstract pixel data. -/
structure GoImage where
  width : Nat
  height : Nat
  pix : List Nat
  deriving Repr, DecidableEq

/-- Byte content of a file, at the granularity the program observes it:
`jpeg.Decode` succeeds exactly on the `jpeg` constructor. PNG and GIF
payloads still carry their decoded image to express that they are
syntactically valid images of those formats. -/
inductive FileContent where
  | jpeg (img : GoImage)
  | png (img : GoImage)
  | gif (img : GoImage)
  | raw (bytes : List Nat)
  deriving Repr, DecidableEq

/-- A file on disk: its content and its modification time. -/
structure FSFile where
  content : FileContent
  modtime : Nat
  deriving Repr, DecidableEq

/-- Filesystem state: files keyed by path (later entries shadowed by
earlier ones), the set of directories created so far, and the current
clock used for `time.Now()` and for the modtime of created files. -/
structure FS where
  files : List (String × FSFile)
  dirs : List String
  now : Nat
  deriving Repr, DecidableEq

/-- `os.Stat` / `os.Open` on the modelled filesystem: look the path up. -/
def statFS (fs : FS) (p : String) : Option FSFile :=
  fs.files.lookup p

/-- `os.Create` followed by writing `c`: the file at `p` now holds `c`
with the current clock as its modification time. -/
def writeFS (fs : FS) (p : String) (c : FileContent) : FS :=
  { fs with files := (p, ⟨c, fs.now⟩) :: fs.files }

/-- `os.MkdirAll(d, 0755)`: record `d` as created (its ancestors are
implied by membership of the deepest path). Never fails in the model,
matching the program, which ignores the returned error. -/
def mkdirAll (fs : FS) (d : String) : FS :=
  { fs with dirs := d :: fs.dirs }

/-- `filepath.Dir` for slash-separated, already-clean paths (the only
ones the program builds): everything before the last `/`, or `.` when
there is no slash. -/
def dirOf (p : String) : String :=
  if p.data.contains '/' then
    String.mk ((p.data.reverse.dropWhile (fun c => c ≠ '/')).drop 1).reverse
  else "."

/-- Decimal digits of `n`, most significant first, via explicit fuel
(structural recursion, so that concrete values compute by `rfl`). -/
def decDigitsAux : Nat → Nat → List Char
  | 0, _ => []
  | fuel + 1, n =>
    if n < 10 then [Nat.digitChar n]
    else decDigitsAux fuel (n / 10) ++ [Nat.digitChar (n % 10)]

/-- Go's `%d` formatting of a `uint`: decimal digits, no sign, no
leading zeros. -/
def natToString (n : Nat) : String :=
  String.mk (decDigitsAux (n + 1) n)

/-- `fmt.Sprintf("imgcache/%s_%d", img.path, img.size)` (main.go:308). -/
def cachePath (p : String) (s : Nat) : String :=
  "imgcache/" ++ p ++ "_" ++ natToString s

/-- ASCII lower-casing of one character, the case folding the `(?i)`
flag performs on the regex's ASCII pattern letters. -/
def lowerChar (c : Char) : Char :=
  if 'A' ≤ c ∧ c ≤ 'Z' then Char.ofNat (c.toNat + 32) else c

/-- The filename filter `regexp.MustCompile((?i).*\.(jpe?g|png|gif)$)`
(main.go:177): case-insensitive match of a `.jpg`, `.jpeg`, `.png` or
`.gif` suffix. -/
def imgreMatch (s : String) : Bool :=
  let l := s.data.map lowerChar
  ".jpg".data.isSuffixOf l || ".jpeg".data.isSuffixOf l ||
    ".png".data.isSuffixOf l || ".gif".data.isSuffixOf l

/-- `jpeg.Decode` (main.go:322): succeeds exactly on JPEG content. -/
def jpegDecode : FileContent → Option GoImage
  | .jpeg img => some img
  | _ => none

/-- `jpeg.Encode` with default options (main.go:338): deterministic
encoding of the image as JPEG bytes. -/
def jpegEncode (img : GoImage) : FileContent :=
  .jpeg img

/-- 2^64, the modulus of Go's 64-bit `uint` arithmetic. -/
def U64 : Nat := 18446744073709551616

/-- Nearest-neighbour resampling to `w' × h'` (`resize.Resize` with
`resize.NearestNeighbor`): each output pixel samples the source at the
scaled coordinate. -/
def resizeNearest (w' h' : Nat) (img : GoImage) : GoImage :=
  ⟨w', h',
    (List.range h').flatMap (fun y =>
      (List.range w').map (fun x =>
        img.pix.getD ((y * img.height / h') * img.width +
          x * img.width / w') 0))⟩

/-- Modelled from the spec: the thumbnail fit computation
(`resize.Thumbnail(img.size, img.size, jpegimg, resize.NearestNeighbor)`
called at main.go:330 — the nfnt/resize library itself is not part of
this repository's sources). Return the image unchanged when it already
fits in the `maxW × maxH` box; otherwise downscale preserving aspect
ratio: bound the width first, rescaling the height proportionally, then
bound the height, rescaling the width from it, with `uint` (mod 2^64)
arithmetic and each computed dimension clamped to at least 1. -/
def thumbnail (maxW maxH : Nat) (img : GoImage) : GoImage :=
  let origW := img.width
  let origH := img.height
  if maxW ≥ origW ∧ maxH ≥ origH then img
  else
    let step1 : Nat × Nat :=
      if origW > maxW then
        let nh := origH * maxW % U64 / origW
        (maxW, if nh < 1 then 1 else nh)
      else (origW, origH)
    if step1.2 > maxH then
      let nw := step1.1 * maxH % U64 / step1.2
      resizeNearest (if nw < 1 then 1 else nw) maxH img
    else
      resizeNearest step1.1 step1.2 img

/-- One image request as carried on the `reqimage` channel: the fields
the caller fills in (`path`, `size`). -/
structure ImageReq where
  path : String
  size : Nat
  deriving Repr, DecidableEq

/-- The result fields of an `Image` as published on its return
channel: the opened handle (modelled by the content it reads),
`modtime`, and `err`. -/
inductive GoError where
  | notFound (path : String)
  | decodeError
  deriving Repr, DecidableEq

/-- Result published back on the request's private channel. -/
structure ImageRes where
  fd : Option FileContent
  modtime : Nat
  err : Option GoError
  deriving Repr, DecidableEq

/-- Effect counters: how many times the processing of one request
invoked `jpeg.Decode`, `resize.Thumbnail`, `jpeg.Encode`,
`os.MkdirAll`, and `os.Create`-plus-write. -/
structure Effects where
  decodes : Nat
  resizes : Nat
  encodes : Nat
  mkdirs : Nat
  writes : Nat
  deriving Repr, DecidableEq

/-- The zero effect record. -/
def Effects.none : Effects := ⟨0, 0, 0, 0, 0⟩

/-- Outcome of processing one request: the new filesystem, the
published result, and the effect counters. -/
structure ProcOut where
  fs : FS
  res : ImageRes
  eff : Effects
  deriving Repr, DecidableEq

/-- The body of `getImage`'s loop for one dequeued request
(main.go:293-354), translated branch by branch:
size 0 serves the source directly; otherwise stat the cache path,
serving the cached file on a hit, and on a miss create the cache
directory, open and decode the source, resize, create the cache file,
write the encoded thumbnail and take `time.Now()` as modtime. Every
error jumps to `publish` with the error recorded on the request. On a
decode failure the source handle is still open when published — the
program closes `img.fd` only after a successful decode — so that
branch carries the source content alongside the error. -/
def processRequest (fs : FS) (req : ImageReq) : ProcOut :=
  if req.size = 0 then
    match statFS fs req.path with
    | Option.none => ⟨fs, ⟨Option.none, 0, some (.notFound req.path)⟩, Effects.none⟩
    | some f => ⟨fs, ⟨some f.content, f.modtime, Option.none⟩, Effects.none⟩
  else
    let cp := cachePath req.path req.size
    match statFS fs cp with
    | some f =>
      ⟨fs, ⟨some f.content, f.modtime, Option.none⟩, Effects.none⟩
    | Option.none =>
      let fs1 := mkdirAll fs (dirOf cp)
      match statFS fs1 req.path with
      | Option.none =>
        ⟨fs1, ⟨Option.none, 0, some (.notFound req.path)⟩, ⟨0, 0, 0, 1, 0⟩⟩
      | some src =>
        match jpegDecode src.content with
        | Option.none =>
          ⟨fs1, ⟨some src.content, 0, some .decodeError⟩, ⟨1, 0, 0, 1, 0⟩⟩
        | some img =>
          let m := thumbnail req.size req.size img
          let enc := jpegEncode m
          let fs2 := writeFS fs1 cp enc
          ⟨fs2, ⟨some enc, fs1.now, Option.none⟩, ⟨1, 1, 1, 1, 1⟩⟩

/-- The worker loop `getImage` (main.go:288-355): a single goroutine
ranges over the intake channel, processing requests one at a time, to
completion, in the order they are received; each result is sent on the
request's own channel before the next request is dequeued. -/
def workerRun (fs : FS) : List ImageReq → FS × List ImageRes
  | [] => (fs, [])
  | r :: rs =>
    let out := processRequest fs r
    let rest := workerRun out.fs rs
    (rest.1, out.res :: rest.2)

/-! ## Basic facts about the filesystem model -/

/-- Creating a directory does not touch any file. -/
theorem statFS_mkdirAll (fs : FS) (d q : String) :
    statFS (mkdirAll fs d) q = statFS fs q := rfl

/-- Creating a directory does not change the clock. -/
theorem mkdirAll_now (fs : FS) (d : String) : (mkdirAll fs d).now = fs.now := rfl

/-- After writing a file, stat-ing its path finds the written content
with the current clock as modification time. -/
theorem statFS_writeFS_self (fs : FS) (p : String) (c : FileContent) :
    statFS (writeFS fs p c) p = some ⟨c, fs.now⟩ := by
  simp [statFS, writeFS, List.lookup]

/-! ## Branch equations for `processRequest`, one per control path of
`getImage` -/

/-- The `img.size == 0` branch (main.go:295-307). -/
theorem processRequest_size_zero (fs : FS) (p : String) :
    processRequest fs ⟨p, 0⟩ =
      match statFS fs p with
      | Option.none =>
        ⟨fs, ⟨Option.none, 0, some (.notFound p)⟩, Effects.none⟩
      | some f =>
        ⟨fs, ⟨some f.content, f.modtime, Option.none⟩, Effects.none⟩ := by
  simp [processRequest]

/-- The cache-hit branch (main.go:340-351). -/
theorem processRequest_hit (fs : FS) (p : String) (s : Nat) (f : FSFile)
    (hs : s ≠ 0) (hc : statFS fs (cachePath p s) = some f) :
    processRequest fs ⟨p, s⟩ =
      ⟨fs, ⟨some f.content, f.modtime, Option.none⟩, Effects.none⟩ := by
  simp [processRequest, hs, hc]

/-- The cache-miss branch with a missing source (main.go:315-318). -/
theorem processRequest_miss_notFound (fs : FS) (p : String) (s : Nat)
    (hs : s ≠ 0) (hmiss : statFS fs (cachePath p s) = Option.none)
    (hsrc : statFS fs p = Option.none) :
    processRequest fs ⟨p, s⟩ =
      ⟨mkdirAll fs (dirOf (cachePath p s)),
        ⟨Option.none, 0, some (.notFound p)⟩, ⟨0, 0, 0, 1, 0⟩⟩ := by
  simp [processRequest, hs, hmiss, statFS_mkdirAll, hsrc]

/-- The cache-miss branch with an undecodable source (main.go:320-325):
the error is recorded and the still-open source handle is published
with it. -/
theorem processRequest_miss_decodeError (fs : FS) (p : String) (s : Nat)
    (src : FSFile) (hs : s ≠ 0)
    (hmiss : statFS fs (cachePath p s) = Option.none)
    (hsrc : statFS fs p = some src)
    (hdec : jpegDecode src.content = Option.none) :
    processRequest fs ⟨p, s⟩ =
      ⟨mkdirAll fs (dirOf (cachePath p s)),
        ⟨some src.content, 0, some .decodeError⟩, ⟨1, 0, 0, 1, 0⟩⟩ := by
  simp [processRequest, hs, hmiss, statFS_mkdirAll, hsrc, hdec]

/-- The successful cache-miss branch (main.go:309-339). -/
theorem processRequest_miss_ok (fs : FS) (p : String) (s : Nat)
    (src : FSFile) (img : GoImage) (hs : s ≠ 0)
    (hmiss : statFS fs (cachePath p s) = Option.none)
    (hsrc : statFS fs p = some src)
    (hdec : jpegDecode src.content = some img) :
    processRequest fs ⟨p, s⟩ =
      ⟨writeFS (mkdirAll fs (dirOf (cachePath p s))) (cachePath p s)
          (jpegEncode (thumbnail s s img)),
        ⟨some (jpegEncode (thumbnail s s img)), fs.now, Option.none⟩,
        ⟨1, 1, 1, 1, 1⟩⟩ := by
  simp [processRequest, hs, hmiss, statFS_mkdirAll, hsrc, hdec, mkdirAll_now]

/-- Sample image and filesystem used to instantiate the theorems at
concrete inputs. -/
def sampleImg : GoImage := ⟨2, 1, [10, 20]⟩

/-- A small filesystem: one JPEG source, one PNG source, one GIF
source, and one pre-existing cache entry for `gallery/c.jpg` at size 7. -/
def sampleFS : FS :=
  ⟨[("gallery/foo.jpg", ⟨.jpeg sampleImg, 5⟩),
    ("gallery/p.png", ⟨.png sampleImg, 5⟩),
    ("gallery/g.gif", ⟨.gif sampleImg, 5⟩),
    (cachePath "gallery/c.jpg" 7, ⟨.raw [1, 2], 9⟩)], [], 42⟩

/-- C2: for every request with `size > 0` whose cache path stats
successfully (cache hit), the worker returns the cached file's content
as the handle together with the cached file's modification time, leaves
the filesystem unchanged, and performs no decode, resize, encode,
directory creation, or write. -/
theorem cache_hit_serves_cached_without_work (fs : FS) (p : String)
    (s : Nat) (f : FSFile) (hs : s ≠ 0)
    (hc : statFS fs (cachePath p s) = some f) :
    (processRequest fs ⟨p, s⟩).res =
        ⟨some f.content, f.modtime, Option.none⟩ ∧
      (processRequest fs ⟨p, s⟩).fs = fs ∧
      (processRequest fs ⟨p, s⟩).eff = Effects.none := by
  rw [processRequest_hit fs p s f hs hc]
  exact ⟨rfl, rfl, rfl⟩

/-- Witness for C2 at a concrete input: `sampleFS` holds a cache entry
for `gallery/c.jpg` at size 7. -/
theorem cache_hit_serves_cached_without_work_witness :
    (processRequest sampleFS ⟨"gallery/c.jpg", 7⟩).res =
        ⟨some (.raw [1, 2]), 9, Option.none⟩ ∧
      (processRequest sampleFS ⟨"gallery/c.jpg", 7⟩).fs = sampleFS ∧
      (processRequest sampleFS ⟨"gallery/c.jpg", 7⟩).eff = Effects.none :=
  cache_hit_serves_cached_without_work sampleFS "gallery/c.jpg" 7
    ⟨.raw [1, 2], 9⟩ (by decide) (by decide)

/-- C3: a request with `requestedSize = 0` leaves the filesystem
unchanged, performs no cache work at all, returns the source's content
and its modification time when the source exists, and its outcome
depends only on the source path's entry — hence is the same however
the cache is populated. -/
theorem size_zero_serves_original (fs : FS) (p : String) :
    (processRequest fs ⟨p, 0⟩).fs = fs ∧
      (processRequest fs ⟨p, 0⟩).eff = Effects.none ∧
      (∀ f, statFS fs p = some f →
        (processRequest fs ⟨p, 0⟩).res =
          ⟨some f.content, f.modtime, Option.none⟩) ∧
      ∀ fs2 : FS, statFS fs2 p = statFS fs p →
        (processRequest fs2 ⟨p, 0⟩).res = (processRequest fs ⟨p, 0⟩).res := by
  refine ⟨?_, ?_, ?_, ?_⟩
  · rw [processRequest_size_zero]
    cases statFS fs p <;> rfl
  · rw [processRequest_size_zero]
    cases statFS fs p <;> rfl
  · intro f hf
    rw [processRequest_size_zero, hf]
  · intro fs2 h2
    rw [processRequest_size_zero, processRequest_size_zero, h2]
    cases statFS fs p <;> rfl

/-- Witness for C3 at a concrete input: `gallery/foo.jpg` at size 0 on
`sampleFS`, with a second filesystem that differs only in cache
entries. -/
theorem size_zero_serves_original_witness :
    (processRequest sampleFS ⟨"gallery/foo.jpg", 0⟩).fs = sampleFS ∧
      (processRequest sampleFS ⟨"gallery/foo.jpg", 0⟩).res =
        ⟨some (.jpeg sampleImg), 5, Option.none⟩ :=
  ⟨(size_zero_serves_original sampleFS "gallery/foo.jpg").1,
    (size_zero_serves_original sampleFS "gallery/foo.jpg").2.2.1
      ⟨.jpeg sampleImg, 5⟩ (by decide)⟩

/-- C4: requests are processed by the single worker loop one at a
time, end-to-end, in strict FIFO order of arrival: the response at
position `pre.length` is exactly the processing of `r` started from the
state left by the preceding requests in order, and its result is
published after all of theirs and before all later ones. In
particular a cache hit enqueued after a pending miss is processed only
once that miss has completed (no short-circuit), and no two
resize/cache operations overlap. -/
theorem worker_fifo_serializes (fs : FS) (pre : List ImageReq)
    (r : ImageReq) (post : List ImageReq) :
    (workerRun fs (pre ++ r :: post)).2 =
      (workerRun fs pre).2 ++
        (processRequest (workerRun fs pre).1 r).res ::
          (workerRun (processRequest (workerRun fs pre).1 r).fs post).2 := by
  induction pre generalizing fs with
  | nil => rfl
  | cons r0 pre ih =>
    simp only [List.cons_append, workerRun, List.append_eq, ih]

/-- C5: every dequeued request is published exactly once, carrying an
error value or a valid handle: the processing function is total, every
control path records any error on the request's error field and yields
exactly one result, so the worker answers request lists pointwise and
never drops a request nor aborts its loop. The two cases are not
exclusive — on a decode failure the program publishes the still-open
source handle together with the error, since it closes `img.fd` only
after a successful decode. -/
theorem worker_publishes_each_request_once :
    (∀ (fs : FS) (req : ImageReq),
        ((processRequest fs req).res.err).isSome = true ∨
        ((processRequest fs req).res.err = Option.none ∧
          ((processRequest fs req).res.fd).isSome = true)) ∧
    ∀ (fs : FS) (reqs : List ImageReq),
      ((workerRun fs reqs).2).length = reqs.length := by
  constructor
  · intro fs req
    obtain ⟨p, s⟩ := req
    by_cases hs : s = 0
    · subst hs
      rw [processRequest_size_zero]
      cases statFS fs p
      · exact Or.inl rfl
      · exact Or.inr ⟨rfl, rfl⟩
    · cases hc : statFS fs (cachePath p s) with
      | some f =>
        rw [processRequest_hit fs p s f hs hc]
        exact Or.inr ⟨rfl, rfl⟩
      | none =>
        cases hsrc : statFS fs p with
        | none =>
          rw [processRequest_miss_notFound fs p s hs hc hsrc]
          exact Or.inl rfl
        | some src =>
          cases hdec : jpegDecode src.content with
          | none =>
            rw [processRequest_miss_decodeError fs p s src hs hc hsrc hdec]
            exact Or.inl rfl
          | some img =>
            rw [processRequest_miss_ok fs p s src img hs hc hsrc hdec]
            exact Or.inr ⟨rfl, rfl⟩
  · intro fs reqs
    induction reqs generalizing fs with
    | nil => rfl
    | cons r rs ih =>
      simp only [workerRun, List.length_cons, ih]

/-- C1: on a cache miss with `size > 0` and a decodable source, the
worker creates the cache file at `cachePath(path, size)` containing the
encoded thumbnail, records the current clock as the result's
modification time and returns the encoded bytes; an identical second
request then finds the file present and returns the same contents with
no decode, resize, encode, directory creation or write. -/
theorem cache_miss_creates_file_then_hit (fs : FS) (p : String) (s : Nat)
    (src : FSFile) (img : GoImage) (hs : s ≠ 0)
    (hmiss : statFS fs (cachePath p s) = Option.none)
    (hsrc : statFS fs p = some src)
    (hdec : jpegDecode src.content = some img) :
    statFS (processRequest fs ⟨p, s⟩).fs (cachePath p s) =
        some ⟨jpegEncode (thumbnail s s img), fs.now⟩ ∧
      (processRequest fs ⟨p, s⟩).res =
        ⟨some (jpegEncode (thumbnail s s img)), fs.now, Option.none⟩ ∧
      (processRequest fs ⟨p, s⟩).eff.writes = 1 ∧
      (processRequest (processRequest fs ⟨p, s⟩).fs ⟨p, s⟩).res =
        ⟨some (jpegEncode (thumbnail s s img)), fs.now, Option.none⟩ ∧
      (processRequest (processRequest fs ⟨p, s⟩).fs ⟨p, s⟩).eff =
        Effects.none := by
  rw [processRequest_miss_ok fs p s src img hs hmiss hsrc hdec]
  have hfile :
      statFS (writeFS (mkdirAll fs (dirOf (cachePath p s))) (cachePath p s)
          (jpegEncode (thumbnail s s img))) (cachePath p s) =
        some ⟨jpegEncode (thumbnail s s img), fs.now⟩ := by
    rw [statFS_writeFS_self, mkdirAll_now]
  refine ⟨hfile, rfl, rfl, ?_, ?_⟩ <;>
    rw [processRequest_hit _ p s ⟨jpegEncode (thumbnail s s img), fs.now⟩
      hs hfile]

/-- Witness for C1 at a concrete input: `gallery/foo.jpg` at size 300
on `sampleFS` (no cache entry for it). The source fits inside the
300 × 300 box, so the thumbnail is the source image itself. -/
theorem cache_miss_creates_file_then_hit_witness :
    statFS (processRequest sampleFS ⟨"gallery/foo.jpg", 300⟩).fs
        (cachePath "gallery/foo.jpg" 300) =
      some ⟨jpegEncode (thumbnail 300 300 sampleImg), 42⟩ ∧
    (processRequest sampleFS ⟨"gallery/foo.jpg", 300⟩).res =
      ⟨some (jpegEncode (thumbnail 300 300 sampleImg)), 42, Option.none⟩ ∧
    (processRequest sampleFS ⟨"gallery/foo.jpg", 300⟩).eff.writes = 1 ∧
    (processRequest (processRequest sampleFS ⟨"gallery/foo.jpg", 300⟩).fs
        ⟨"gallery/foo.jpg", 300⟩).res =
      ⟨some (jpegEncode (thumbnail 300 300 sampleImg)), 42, Option.none⟩ ∧
    (processRequest (processRequest sampleFS ⟨"gallery/foo.jpg", 300⟩).fs
        ⟨"gallery/foo.jpg", 300⟩).eff = Effects.none :=
  cache_miss_creates_file_then_hit sampleFS "gallery/foo.jpg" 300
    ⟨.jpeg sampleImg, 5⟩ sampleImg (by decide) (by decide) (by decide) rfl

/-- C6: on a cache miss with `size > 0` where the source is missing or
does not decode, the worker records the corresponding error
(`notFound` for a missing source, `decodeError` otherwise), creates no
cache file at `cachePath(path, size)`, and performs no write;
processing is total, so the loop survives the error. -/
theorem miss_failure_creates_no_cache_file (fs : FS) (p : String)
    (s : Nat) (hs : s ≠ 0)
    (hmiss : statFS fs (cachePath p s) = Option.none)
    (hbad : ∀ src, statFS fs p = some src →
      jpegDecode src.content = Option.none) :
    (processRequest fs ⟨p, s⟩).res.err =
        some ((statFS fs p).elim (GoError.notFound p)
          (fun _ => GoError.decodeError)) ∧
      statFS (processRequest fs ⟨p, s⟩).fs (cachePath p s) = Option.none ∧
      (processRequest fs ⟨p, s⟩).eff.writes = 0 := by
  cases hsrc : statFS fs p with
  | none =>
    rw [processRequest_miss_notFound fs p s hs hmiss hsrc]
    exact ⟨rfl, hmiss, rfl⟩
  | some src =>
    rw [processRequest_miss_decodeError fs p s src hs hmiss hsrc
      (hbad src hsrc)]
    exact ⟨rfl, hmiss, rfl⟩

/-- Witness for C6 at a concrete input: the missing source
`gallery/missing.jpg` at size 100 on `sampleFS`. -/
theorem miss_failure_creates_no_cache_file_witness :
    (processRequest sampleFS ⟨"gallery/missing.jpg", 100⟩).res.err =
        some ((statFS sampleFS "gallery/missing.jpg").elim
          (GoError.notFound "gallery/missing.jpg")
          (fun _ => GoError.decodeError)) ∧
      statFS (processRequest sampleFS ⟨"gallery/missing.jpg", 100⟩).fs
        (cachePath "gallery/missing.jpg" 100) = Option.none ∧
      (processRequest sampleFS ⟨"gallery/missing.jpg", 100⟩).eff.writes = 0 :=
  miss_failure_creates_no_cache_file sampleFS "gallery/missing.jpg" 100
    (by decide) (by decide)
    (fun src h => by
      rw [show statFS sampleFS "gallery/missing.jpg" = Option.none from
        by decide] at h
      exact Option.noConfusion h)

/-- C9: on a cache miss the worker runs `os.MkdirAll` on the cache
file's parent directory before it ever opens or decodes the source, so
a request that then fails still leaves the cache directory recorded on
disk, while the cache file itself is not created — the
no-side-effect-on-error guarantee covers only the file. -/
theorem miss_failure_still_creates_directories (fs : FS) (p : String)
    (s : Nat) (hs : s ≠ 0)
    (hmiss : statFS fs (cachePath p s) = Option.none)
    (hbad : ∀ src, statFS fs p = some src →
      jpegDecode src.content = Option.none) :
    ((processRequest fs ⟨p, s⟩).res.err).isSome = true ∧
      dirOf (cachePath p s) ∈ (processRequest fs ⟨p, s⟩).fs.dirs ∧
      (processRequest fs ⟨p, s⟩).eff.mkdirs = 1 ∧
      statFS (processRequest fs ⟨p, s⟩).fs (cachePath p s) =
        Option.none := by
  cases hsrc : statFS fs p with
  | none =>
    rw [processRequest_miss_notFound fs p s hs hmiss hsrc]
    exact ⟨rfl, List.mem_cons_self _ _, rfl, hmiss⟩
  | some src =>
    rw [processRequest_miss_decodeError fs p s src hs hmiss hsrc
      (hbad src hsrc)]
    exact ⟨rfl, List.mem_cons_self _ _, rfl, hmiss⟩

/-- Witness for C9 at a concrete input: the PNG source
`gallery/p.png` at size 100 on `sampleFS` fails to decode, yet the
cache directory `imgcache/gallery` is created. -/
theorem miss_failure_still_creates_directories_witness :
    ((processRequest sampleFS ⟨"gallery/p.png", 100⟩).res.err).isSome =
        true ∧
      dirOf (cachePath "gallery/p.png" 100) ∈
        (processRequest sampleFS ⟨"gallery/p.png", 100⟩).fs.dirs ∧
      (processRequest sampleFS ⟨"gallery/p.png", 100⟩).eff.mkdirs = 1 ∧
      statFS (processRequest sampleFS ⟨"gallery/p.png", 100⟩).fs
        (cachePath "gallery/p.png" 100) = Option.none :=
  miss_failure_still_creates_directories sampleFS "gallery/p.png" 100
    (by decide) (by decide)
    (fun src h => by
      rw [show statFS sampleFS "gallery/p.png" =
        some ⟨.png sampleImg, 5⟩ from by decide] at h
      cases h
      rfl)

/-- C10: the filename filter admits every `.png` and `.gif` name
(case-insensitively), yet the worker decodes sources only as JPEG, so
a syntactically valid PNG or GIF source requested at any positive size
with no cache entry resolves to a decode error instead of a thumbnail:
the published handle is the raw source (still open at publish time)
and no cache file is written. -/
theorem png_gif_admitted_but_decode_fails :
    (∀ q : String, imgreMatch (q ++ ".png") = true ∧
      imgreMatch (q ++ ".gif") = true) ∧
    ∀ (fs : FS) (p : String) (s : Nat) (f : FSFile) (img : GoImage),
      s ≠ 0 → statFS fs (cachePath p s) = Option.none →
      statFS fs p = some f →
      (f.content = .png img ∨ f.content = .gif img) →
      (processRequest fs ⟨p, s⟩).res.err = some .decodeError ∧
        (processRequest fs ⟨p, s⟩).res.fd = some f.content ∧
        statFS (processRequest fs ⟨p, s⟩).fs (cachePath p s) =
          Option.none := by
  constructor
  · intro q
    constructor
    · have hdata : (q ++ ".png").data.map lowerChar =
          q.data.map lowerChar ++ ".png".data := by
        rw [show (q ++ ".png").data = q.data ++ ".png".data from rfl,
          List.map_append,
          show ".png".data.map lowerChar = ".png".data from by decide]
      have h3 : ".png".data.isSuffixOf
          (q.data.map lowerChar ++ ".png".data) = true :=
        List.isSuffixOf_iff_suffix.mpr (List.suffix_append _ _)
      simp only [imgreMatch, hdata, h3, Bool.or_true, Bool.true_or]
    · have hdata : (q ++ ".gif").data.map lowerChar =
          q.data.map lowerChar ++ ".gif".data := by
        rw [show (q ++ ".gif").data = q.data ++ ".gif".data from rfl,
          List.map_append,
          show ".gif".data.map lowerChar = ".gif".data from by decide]
      have h4 : ".gif".data.isSuffixOf
          (q.data.map lowerChar ++ ".gif".data) = true :=
        List.isSuffixOf_iff_suffix.mpr (List.suffix_append _ _)
      simp only [imgreMatch, hdata, h4, Bool.or_true, Bool.true_or]
  · intro fs p s f img hs hmiss hsrc hcontent
    have hdec : jpegDecode f.content = Option.none := by
      rcases hcontent with h | h <;> rw [h] <;> rfl
    rw [processRequest_miss_decodeError fs p s f hs hmiss hsrc hdec]
    exact ⟨rfl, rfl, hmiss⟩

/-- Witness for C10 at a concrete input: the name `gallery/p.png`
passes the filter; the PNG source fails to decode at size 100, its
raw handle is published with the error, and no thumbnail is cached. -/
theorem png_gif_admitted_but_decode_fails_witness :
    imgreMatch ("gallery/p" ++ ".png") = true ∧
      (processRequest sampleFS ⟨"gallery/p.png", 100⟩).res.err =
        some .decodeError ∧
      (processRequest sampleFS ⟨"gallery/p.png", 100⟩).res.fd =
        some (.png sampleImg) ∧
      statFS (processRequest sampleFS ⟨"gallery/p.png", 100⟩).fs
        (cachePath "gallery/p.png" 100) = Option.none :=
  ⟨(png_gif_admitted_but_decode_fails.1 "gallery/p").1,
    png_gif_admitted_but_decode_fails.2 sampleFS "gallery/p.png" 100
      ⟨.png sampleImg, 5⟩ sampleImg (by decide) (by decide) (by decide)
      (Or.inl rfl)⟩

/-! ## Injectivity of the cache-path scheme (decimal digits carry no
underscore, so the last underscore separates path from size) -/

/-- Each digit character produced for a value below ten is a decimal
digit. -/
theorem digitChar_isDigit (d : Nat) (hd : d < 10) :
    (Nat.digitChar d).isDigit = true := by
  interval_cases d <;> decide

/-- Every character of a fuelled decimal rendering is a decimal
digit. -/
theorem decDigitsAux_isDigit (fuel n : Nat) (c : Char)
    (hc : c ∈ decDigitsAux fuel n) : c.isDigit = true := by
  induction fuel generalizing n with
  | zero => simp [decDigitsAux] at hc
  | succ fuel ih =>
    rw [decDigitsAux] at hc
    by_cases h10 : n < 10
    · rw [if_pos h10] at hc
      rcases List.mem_singleton.mp hc with rfl
      exact digitChar_isDigit n h10
    · rw [if_neg h10] at hc
      rcases List.mem_append.mp hc with h | h
      · exact ih (n / 10) h
      · rcases List.mem_singleton.mp h with rfl
        exact digitChar_isDigit (n % 10) (Nat.mod_lt n (by omega))

/-- Numeric value of one digit character. -/
def charVal (c : Char) : Nat := c.toNat - 48

/-- Numeric value of a most-significant-first digit string. -/
def digitsVal (l : List Char) : Nat :=
  l.foldl (fun a c => a * 10 + charVal c) 0

/-- `charVal` inverts `Nat.digitChar` below ten. -/
theorem charVal_digitChar (d : Nat) (hd : d < 10) :
    charVal (Nat.digitChar d) = d := by
  interval_cases d <;> decide

/-- With enough fuel, the decimal rendering evaluates back to its
input. -/
theorem digitsVal_decDigitsAux (fuel : Nat) :
    ∀ n : Nat, n < fuel → digitsVal (decDigitsAux fuel n) = n := by
  induction fuel with
  | zero => intro n hn; omega
  | succ fuel ih =>
    intro n hn
    rw [decDigitsAux]
    by_cases h10 : n < 10
    · rw [if_pos h10]
      show 0 * 10 + charVal (Nat.digitChar n) = n
      rw [charVal_digitChar n h10]
      omega
    · rw [if_neg h10]
      have hdiv : n / 10 < fuel := by
        have := Nat.div_lt_self (by omega : 0 < n) (by omega : 1 < 10)
        omega
      show List.foldl (fun a c => a * 10 + charVal c) 0
        (decDigitsAux fuel (n / 10) ++ [Nat.digitChar (n % 10)]) = n
      rw [List.foldl_append]
      show digitsVal (decDigitsAux fuel (n / 10)) * 10 +
        charVal (Nat.digitChar (n % 10)) = n
      rw [ih (n / 10) hdiv, charVal_digitChar (n % 10) (Nat.mod_lt n (by omega))]
      omega

/-- Splitting at the last underscore: when what follows the marker on
both sides is all digits, the parts agree. -/
theorem append_underscore_digits_eq (a : List Char) :
    ∀ (b d e : List Char), (∀ c ∈ d, c.isDigit = true) →
      (∀ c ∈ e, c.isDigit = true) →
      a ++ '_' :: d = b ++ '_' :: e → a = b ∧ d = e := by
  induction a with
  | nil =>
    intro b d e hd he h
    cases b with
    | nil =>
      simp only [List.nil_append, List.cons.injEq] at h
      exact ⟨rfl, h.2⟩
    | cons y b2 =>
      simp only [List.nil_append, List.cons_append, List.cons.injEq] at h
      have hmem : '_' ∈ d := by
        rw [h.2]
        exact List.mem_append.mpr (Or.inr (List.mem_cons_self _ _))
      have := hd '_' hmem
      simp at this
  | cons x a2 ih =>
    intro b d e hd he h
    cases b with
    | nil =>
      simp only [List.nil_append, List.cons_append, List.cons.injEq] at h
      have hmem : '_' ∈ e := by
        rw [← h.2]
        exact List.mem_append.mpr (Or.inr (List.mem_cons_self _ _))
      have := he '_' hmem
      simp at this
    | cons y b2 =>
      simp only [List.cons_append, List.cons.injEq] at h
      obtain ⟨hab, hde⟩ := ih b2 d e hd he h.2
      exact ⟨by rw [h.1, hab], hde⟩

/-- Two strings with equal character data are equal. -/
theorem string_data_inj (p q : String) (h : p.data = q.data) : p = q := by
  cases p
  cases q
  cases h
  rfl

/-- C7: the cache-path function is injective — equal cache paths come
from the same source path and the same requested size. The rendered
decimal size contains no underscore, so the underscore appended by the
format string is the last one of the name, and `imgcache/` is a fixed
head. -/
theorem cachePath_injective (p1 p2 : String) (s1 s2 : Nat)
    (h : cachePath p1 s1 = cachePath p2 s2) : p1 = p2 ∧ s1 = s2 := by
  have hdata : "imgcache/".data ++ (p1.data ++ '_' :: decDigitsAux (s1 + 1) s1) =
      "imgcache/".data ++ (p2.data ++ '_' :: decDigitsAux (s2 + 1) s2) := by
    have hd := congrArg String.data h
    rw [show (cachePath p1 s1).data =
        "imgcache/".data ++ (p1.data ++ '_' :: decDigitsAux (s1 + 1) s1) by
      simp [cachePath, natToString, List.append_assoc],
      show (cachePath p2 s2).data =
        "imgcache/".data ++ (p2.data ++ '_' :: decDigitsAux (s2 + 1) s2) by
      simp [cachePath, natToString, List.append_assoc]] at hd
    exact hd
  have h2 := List.append_cancel_left hdata
  obtain ⟨hp, hdig⟩ := append_underscore_digits_eq p1.data p2.data _ _
    (fun c hc => decDigitsAux_isDigit (s1 + 1) s1 c hc)
    (fun c hc => decDigitsAux_isDigit (s2 + 1) s2 c hc) h2
  refine ⟨string_data_inj p1 p2 hp, ?_⟩
  have hv := congrArg digitsVal hdig
  rw [digitsVal_decDigitsAux (s1 + 1) s1 (by omega),
    digitsVal_decDigitsAux (s2 + 1) s2 (by omega)] at hv
  exact hv

/-- Witness for C7 at a concrete input. -/
theorem cachePath_injective_witness : "gallery/a.jpg" = "gallery/a.jpg" ∧ 300 = 300 :=
  cachePath_injective "gallery/a.jpg" "gallery/a.jpg" 300 300 rfl

/-! ## The thumbnail fit law -/

/-- The resampler returns an image of exactly the requested width. -/
theorem resizeNearest_width (a b : Nat) (i : GoImage) :
    (resizeNearest a b i).width = a := rfl

/-- The resampler returns an image of exactly the requested height. -/
theorem resizeNearest_height (a b : Nat) (i : GoImage) :
    (resizeNearest a b i).height = b := rfl

/-- Aspect-ratio error bound for the doubly rounded branch of
`resize.Thumbnail`: first the height is scaled down (quotient `q` of
`h * N` by `w`, remainder `r`), then, that being above the box, the
width is rescaled from it (quotient `u` of `N * N` by `q`, remainder
`s`). -/
theorem double_division_aspect_bound (w h N q u r s : Int)
    (hw : 1 ≤ w) (hh : 1 ≤ h) (hN : 1 ≤ N)
    (hq : N < q)
    (e1 : w * q + r = h * N) (hr0 : 0 ≤ r) (hrw : r < w)
    (e2 : q * u + s = N * N) (hs0 : 0 ≤ s) (hsq : s < q) :
    |u * h - N * w| < w + h := by
  have hq0 : (0 : Int) < q := by linarith
  have key : q * (u * h - N * w) = N * r - s * h := by
    linear_combination (-N) * e1 + h * e2
  have upper : u * h - N * w < w := by
    have ha : N * r ≤ N * (w - 1) :=
      mul_le_mul_of_nonneg_left (by linarith) (by linarith)
    have hb : N * w < q * w :=
      mul_lt_mul_of_pos_right hq (by linarith)
    have hc : (0 : Int) ≤ s * h := mul_nonneg hs0 (by linarith)
    have h1 : N * r - s * h < q * w := by nlinarith
    have h2 : q * (u * h - N * w) < q * w := by rw [key]; exact h1
    exact lt_of_mul_lt_mul_left h2 (le_of_lt hq0)
  have lower : -h < u * h - N * w := by
    have ha : s * h < q * h := mul_lt_mul_of_pos_right hsq (by linarith)
    have hb : (0 : Int) ≤ N * r := mul_nonneg (by linarith) hr0
    have h1 : q * (-h) < N * r - s * h := by nlinarith
    have h2 : q * (-h) < q * (u * h - N * w) := by rw [key]; exact h1
    exact lt_of_mul_lt_mul_left h2 (le_of_lt hq0)
  rw [abs_lt]
  constructor <;> linarith

set_option maxHeartbeats 1600000 in
/-- C8: thumbnail fit law for `resize.Thumbnail(N, N, img, ...)` as
called by the worker. Source dimensions are positive and below 2^16
(the JPEG format stores dimensions in 16-bit fields, and the only
decoder feeding the resizer is `jpeg.Decode`), so the `uint`
multiplications do not wrap. The output fits the `N × N` box, a source
already inside the box is returned unresized, at least one output
dimension equals `N` whenever the source exceeds the box, and the
aspect ratio is preserved within rounding: the cross product of output
and source dimensions differs by less than `width + height`. -/
theorem thumbnail_fit_law (img : GoImage) (N : Nat)
    (hN : 1 ≤ N) (hw1 : 1 ≤ img.width) (hh1 : 1 ≤ img.height)
    (hwb : img.width < 65536) (hhb : img.height < 65536) :
    (thumbnail N N img).width ≤ N ∧
      (thumbnail N N img).height ≤ N ∧
      (N ≥ img.width ∧ N ≥ img.height → thumbnail N N img = img) ∧
      ((N < img.width ∨ N < img.height) →
        (thumbnail N N img).width = N ∨ (thumbnail N N img).height = N) ∧
      |((thumbnail N N img).width : Int) * img.height -
          ((thumbnail N N img).height : Int) * img.width| <
        (img.width : Int) + img.height := by
  obtain ⟨w, h, pix⟩ := img
  dsimp only at hw1 hh1 hwb hhb ⊢
  have hwI : (1 : Int) ≤ (w : Int) := by exact_mod_cast hw1
  have hhI : (1 : Int) ≤ (h : Int) := by exact_mod_cast hh1
  have hNI : (1 : Int) ≤ (N : Int) := by exact_mod_cast hN
  by_cases hA : N ≥ w ∧ N ≥ h
  · have heq : thumbnail N N ⟨w, h, pix⟩ = ⟨w, h, pix⟩ := by
      simp only [thumbnail]
      rw [if_pos hA]
    rw [heq]
    dsimp only
    refine ⟨hA.1, hA.2, fun _ => rfl, fun hcon => by omega, ?_⟩
    have hz : ((w : Int) * h - (h : Int) * w) = 0 := by ring
    rw [hz, abs_zero]
    linarith
  · by_cases hwN : N < w
    · -- case B: the source is wider than the box
      have hmodB : h * N % U64 = h * N := by
        apply Nat.mod_eq_of_lt
        have hb : h * N ≤ 65535 * 65535 :=
          Nat.mul_le_mul (by omega) (by omega)
        show h * N < 18446744073709551616
        omega
      by_cases hq : h * N / w = 0
      · -- the scaled height rounds to zero and is clamped to 1
        have heq : thumbnail N N ⟨w, h, pix⟩ =
            resizeNearest N 1 ⟨w, h, pix⟩ := by
          simp only [thumbnail]
          rw [if_neg hA, if_pos hwN, hmodB, hq, if_pos Nat.zero_lt_one]
          dsimp only
          rw [if_neg (show ¬ 1 > N by omega)]
        rw [heq, resizeNearest_width, resizeNearest_height]
        have hlt : h * N < w := by
          by_contra hcon
          have h2 : 1 ≤ h * N / w :=
            (Nat.one_le_div_iff (show 0 < w by omega)).mpr
              (Nat.le_of_not_lt hcon)
          rw [hq] at h2
          exact absurd h2 (by decide)
        have hltI : (h : Int) * N < w := by exact_mod_cast hlt
        have hge1 : (0 : Int) < (h : Int) * N := by
          have h1 : 0 < h * N := Nat.mul_pos (by omega) (by omega)
          exact_mod_cast h1
        refine ⟨le_refl N, hN, fun hcon => absurd hcon hA,
          fun _ => Or.inl rfl, ?_⟩
        rw [abs_lt]
        push_cast
        constructor <;> nlinarith
      · -- the scaled height is at least 1
        have hq1 : 1 ≤ h * N / w := Nat.pos_of_ne_zero hq
        by_cases hgt : h * N / w > N
        · -- case B2: still taller than the box, rescale the width
          have hmod2 : N * N % U64 = N * N := by
            apply Nat.mod_eq_of_lt
            have hb : N * N ≤ 65535 * 65535 :=
              Nat.mul_le_mul (by omega) (by omega)
            show N * N < 18446744073709551616
            omega
          have hq0 : 0 < h * N / w := hq1
          by_cases hu : N * N / (h * N / w) = 0
          · -- the rescaled width rounds to zero and is clamped to 1
            have heq : thumbnail N N ⟨w, h, pix⟩ =
                resizeNearest 1 N ⟨w, h, pix⟩ := by
              simp only [thumbnail]
              rw [if_neg hA, if_pos hwN, hmodB,
                if_neg (Nat.not_lt.mpr hq1)]
              dsimp only
              rw [if_pos hgt, hmod2, hu, if_pos Nat.zero_lt_one]
            rw [heq, resizeNearest_width, resizeNearest_height]
            have hNN : N * N < h * N / w := by
              by_contra hcon
              have h2 : 1 ≤ N * N / (h * N / w) :=
                (Nat.one_le_div_iff hq0).mpr (Nat.le_of_not_lt hcon)
              rw [hu] at h2
              exact absurd h2 (by decide)
            have hqw : (h * N / w) * w ≤ h * N := Nat.div_mul_le_self _ _
            have hNwh : N * w < h := by
              have s1 : w * (N * N) + w ≤ w * (h * N / w) := by
                have s0 := Nat.mul_le_mul_left w
                  (show N * N + 1 ≤ h * N / w by omega)
                rw [Nat.mul_add, Nat.mul_one] at s0
                exact s0
              have s2 : w * (h * N / w) ≤ h * N := by
                rw [Nat.mul_comm]; exact hqw
              have s3 : N * (N * w) < N * h := by nlinarith
              exact Nat.lt_of_mul_lt_mul_left s3
            have hNwhI : (N : Int) * w < h := by exact_mod_cast hNwh
            refine ⟨hN, le_refl N, fun hcon => absurd hcon hA,
              fun _ => Or.inr rfl, ?_⟩
            rw [abs_lt]
            push_cast
            constructor <;> nlinarith
          · -- the rescaled width is at least 1
            have hu1 : 1 ≤ N * N / (h * N / w) := Nat.pos_of_ne_zero hu
            have heq : thumbnail N N ⟨w, h, pix⟩ =
                resizeNearest (N * N / (h * N / w)) N ⟨w, h, pix⟩ := by
              simp only [thumbnail]
              rw [if_neg hA, if_pos hwN, hmodB,
                if_neg (Nat.not_lt.mpr hq1)]
              dsimp only
              rw [if_pos hgt, hmod2, if_neg (Nat.not_lt.mpr hu1)]
            rw [heq, resizeNearest_width, resizeNearest_height]
            have he1 : w * (h * N / w) + h * N % w = h * N :=
              Nat.div_add_mod (h * N) w
            have he1r : h * N % w < w := Nat.mod_lt _ (by omega)
            have he2 : (h * N / w) * (N * N / (h * N / w)) +
                N * N % (h * N / w) = N * N :=
              Nat.div_add_mod (N * N) (h * N / w)
            have he2r : N * N % (h * N / w) < h * N / w :=
              Nat.mod_lt _ hq0
            have hwidth : N * N / (h * N / w) < N := by
              rw [Nat.div_lt_iff_lt_mul hq0]
              exact mul_lt_mul_of_pos_left hgt (by omega)
            refine ⟨le_of_lt hwidth, le_refl N,
              fun hcon => absurd hcon hA, fun _ => Or.inr rfl, ?_⟩
            exact double_division_aspect_bound (w : Int) h N
              ((h * N / w : Nat) : Int) ((N * N / (h * N / w) : Nat) : Int)
              ((h * N % w : Nat) : Int) ((N * N % (h * N / w) : Nat) : Int)
              hwI hhI hNI (by exact_mod_cast hgt)
              (by exact_mod_cast he1) (by positivity)
              (by exact_mod_cast he1r)
              (by exact_mod_cast he2) (by positivity)
              (by exact_mod_cast he2r)
        · -- case B1: fits vertically after the first scaling
          have heq : thumbnail N N ⟨w, h, pix⟩ =
              resizeNearest N (h * N / w) ⟨w, h, pix⟩ := by
            simp only [thumbnail]
            rw [if_neg hA, if_pos hwN, hmodB,
              if_neg (Nat.not_lt.mpr hq1)]
            dsimp only
            rw [if_neg hgt]
          rw [heq, resizeNearest_width, resizeNearest_height]
          have he1 : w * (h * N / w) + h * N % w = h * N :=
            Nat.div_add_mod (h * N) w
          have he1r : h * N % w < w := Nat.mod_lt _ (by omega)
          have he1I : (w : Int) * ((h * N / w : Nat) : Int) +
              ((h * N % w : Nat) : Int) = (h : Int) * N := by
            exact_mod_cast he1
          have he1rI : ((h * N % w : Nat) : Int) < w := by exact_mod_cast he1r
          have hr0I : (0 : Int) ≤ ((h * N % w : Nat) : Int) := by positivity
          refine ⟨le_refl N, Nat.le_of_not_lt hgt,
            fun hcon => absurd hcon hA, fun _ => Or.inl rfl, ?_⟩
          rw [abs_lt]
          constructor <;> nlinarith
    · -- case C: fits horizontally but is taller than the box
      have hwle : w ≤ N := by omega
      have hCh : N < h := by omega
      have hmodC : w * N % U64 = w * N := by
        apply Nat.mod_eq_of_lt
        have hb : w * N ≤ 65535 * 65535 :=
          Nat.mul_le_mul (by omega) (by omega)
        show w * N < 18446744073709551616
        omega
      by_cases hu : w * N / h = 0
      · have heq : thumbnail N N ⟨w, h, pix⟩ =
            resizeNearest 1 N ⟨w, h, pix⟩ := by
          simp only [thumbnail]
          rw [if_neg hA, if_neg (show ¬ w > N by omega)]
          dsimp only
          rw [if_pos hCh, hmodC, hu, if_pos Nat.zero_lt_one]
        rw [heq, resizeNearest_width, resizeNearest_height]
        have hlt : w * N < h := by
          by_contra hcon
          have h2 : 1 ≤ w * N / h :=
            (Nat.one_le_div_iff (show 0 < h by omega)).mpr
              (Nat.le_of_not_lt hcon)
          rw [hu] at h2
          exact absurd h2 (by decide)
        have hltI : (w : Int) * N < h := by exact_mod_cast hlt
        have hge1 : (0 : Int) < (w : Int) * N := by
          have h1 : 0 < w * N := Nat.mul_pos (by omega) (by omega)
          exact_mod_cast h1
        refine ⟨hN, le_refl N, fun hcon => absurd hcon hA,
          fun _ => Or.inr rfl, ?_⟩
        rw [abs_lt]
        push_cast
        clear heq hmodC hu hlt
        constructor <;> nlinarith
      · have hu1 : 1 ≤ w * N / h := Nat.pos_of_ne_zero hu
        have heq : thumbnail N N ⟨w, h, pix⟩ =
            resizeNearest (w * N / h) N ⟨w, h, pix⟩ := by
          simp only [thumbnail]
          rw [if_neg hA, if_neg (show ¬ w > N by omega)]
          dsimp only
          rw [if_pos hCh, hmodC,
            if_neg (Nat.not_lt.mpr hu1)]
        rw [heq, resizeNearest_width, resizeNearest_height]
        have he1 : h * (w * N / h) + w * N % h = w * N :=
          Nat.div_add_mod (w * N) h
        have he1r : w * N % h < h := Nat.mod_lt _ (by omega)
        have hwidth : w * N / h < w := by
          rw [Nat.div_lt_iff_lt_mul (by omega : 0 < h)]
          exact mul_lt_mul_of_pos_left hCh (by omega)
        have he1I : (h : Int) * ((w * N / h : Nat) : Int) +
            ((w * N % h : Nat) : Int) = (w : Int) * N := by
          exact_mod_cast he1
        have he1rI : ((w * N % h : Nat) : Int) < h := by exact_mod_cast he1r
        have hr0I : (0 : Int) ≤ ((w * N % h : Nat) : Int) := by positivity
        refine ⟨le_trans (Nat.le_of_lt hwidth) hwle, le_refl N,
          fun hcon => absurd hcon hA, fun _ => Or.inr rfl, ?_⟩
        rw [abs_lt]
        constructor <;> nlinarith

/-- Witness for C8 at a concrete input: a 2 × 1 source fitted into the
1 × 1 box. -/
theorem thumbnail_fit_law_witness :
    (thumbnail 1 1 sampleImg).width ≤ 1 ∧
      (thumbnail 1 1 sampleImg).height ≤ 1 ∧
      (1 ≥ sampleImg.width ∧ 1 ≥ sampleImg.height →
        thumbnail 1 1 sampleImg = sampleImg) ∧
      ((1 < sampleImg.width ∨ 1 < sampleImg.height) →
        (thumbnail 1 1 sampleImg).width = 1 ∨
          (thumbnail 1 1 sampleImg).height = 1) ∧
      |((thumbnail 1 1 sampleImg).width : Int) * sampleImg.height -
          ((thumbnail 1 1 sampleImg).height : Int) * sampleImg.width| <
        (sampleImg.width : Int) + sampleImg.height :=
  thumbnail_fit_law sampleImg 1 (by decide) (by decide) (by decide)
    (by decide) (by decide)
